import Mathlib

/-!
Verification of the HyperCube-WebGPU core against its specification.

The JavaScript sources are shallowly embedded:
* 3-vectors of JS numbers become `Vec3` over `ℝ`;
* JS operations that can produce `NaN`/`Infinity` (division by a zero
  vector length, modulo by zero, division by a zero year range) are
  embedded as `Option`-valued functions, `none` marking the non-finite
  outcome;
* stateful classes (`DataProcessor`, `SelectionSystem`) become explicit
  state-passing functions over their CPU-visible fields.
-/

namespace HyperCube

open scoped Classical

/-- A 3-vector of JS numbers, modelled over `ℝ`. -/
structure Vec3 where
  x : ℝ
  y : ℝ
  z : ℝ

namespace Vec3

/-- Componentwise addition. -/
def add (a b : Vec3) : Vec3 := ⟨a.x + b.x, a.y + b.y, a.z + b.z⟩

/-- Componentwise subtraction, as in `subtractVectors` of the camera system. -/
def sub (a b : Vec3) : Vec3 := ⟨a.x - b.x, a.y - b.y, a.z - b.z⟩

/-- Scalar multiple of a vector. -/
def smul (t : ℝ) (v : Vec3) : Vec3 := ⟨t * v.x, t * v.y, t * v.z⟩

/-- Dot product, as in `CameraSystem.dot` / `Controls.prototype.dot`. -/
def dot (a b : Vec3) : ℝ := a.x * b.x + a.y * b.y + a.z * b.z

/-- Cross product, as in `CameraSystem.cross` / `Controls.cross`. -/
def cross (a b : Vec3) : Vec3 :=
  ⟨a.y * b.z - a.z * b.y, a.z * b.x - a.x * b.z, a.x * b.y - a.y * b.x⟩

/-- The zero vector. -/
def zero : Vec3 := ⟨0, 0, 0⟩

/-- Vector length `Math.sqrt(x*x + y*y + z*z)`. -/
noncomputable def length (v : Vec3) : ℝ := Real.sqrt (dot v v)

theorem dot_self_nonneg (v : Vec3) : 0 ≤ dot v v := by
  unfold dot; nlinarith [sq_nonneg v.x, sq_nonneg v.y, sq_nonneg v.z]

theorem length_sq (v : Vec3) : length v * length v = dot v v := by
  unfold length
  exact Real.mul_self_sqrt (dot_self_nonneg v)

theorem length_nonneg (v : Vec3) : 0 ≤ length v := Real.sqrt_nonneg _

theorem dot_self_eq_zero_iff (v : Vec3) : dot v v = 0 ↔ v = zero := by
  cases v with
  | mk a b c =>
    unfold dot zero
    simp only [Vec3.mk.injEq]
    constructor
    · intro h
      have h1 : a * a = 0 := by
        linarith [mul_self_nonneg a, mul_self_nonneg b, mul_self_nonneg c]
      have h2 : b * b = 0 := by
        linarith [mul_self_nonneg a, mul_self_nonneg b, mul_self_nonneg c]
      have h3 : c * c = 0 := by
        linarith [mul_self_nonneg a, mul_self_nonneg b, mul_self_nonneg c]
      exact ⟨mul_self_eq_zero.mp h1, mul_self_eq_zero.mp h2, mul_self_eq_zero.mp h3⟩
    · rintro ⟨rfl, rfl, rfl⟩
      ring

theorem length_eq_zero_iff (v : Vec3) : length v = 0 ↔ v = zero := by
  unfold length
  rw [Real.sqrt_eq_zero (dot_self_nonneg v)]
  exact dot_self_eq_zero_iff v

end Vec3

/-- `CameraSystem.normalize` (src/unnamed/part_000): divides each component by
the length with no zero guard; a zero vector yields `0/0 = NaN` components in
JS, modelled as `none`. -/
noncomputable def normalizeJS (v : Vec3) : Option Vec3 :=
  if Vec3.length v = 0 then none
  else some ⟨v.x / Vec3.length v, v.y / Vec3.length v, v.z / Vec3.length v⟩

/-- `CameraSystem.updateViewMatrix` basis: `z = normalize(target - position)`,
`x = normalize(cross(up, z))`, `y = cross(z, x)`; `none` when a normalize
produced NaN components. -/
noncomputable def viewBasis (position target up : Vec3) : Option (Vec3 × Vec3 × Vec3) := do
  let z ← normalizeJS (Vec3.sub target position)
  let x ← normalizeJS (Vec3.cross up z)
  pure (x, Vec3.cross z x, z)

/-- `CameraSystem.updateViewMatrix`: the 16 entries written into
`this.viewMatrix`, or `none` when the basis computation produced NaNs. -/
noncomputable def updateViewMatrix (position target up : Vec3) : Option (List ℝ) := do
  let (x, y, z) ← viewBasis position target up
  pure [x.x, y.x, z.x, 0,
        x.y, y.y, z.y, 0,
        x.z, y.z, z.z, 0,
        -Vec3.dot x position, -Vec3.dot y position, -Vec3.dot z position, 1]

/-- `CameraSystem.moveForward` (src/unnamed/part_000): translates both
`position` and `target` by `normalize(target - position) * distance`.
`none` models the NaN pose produced when `target = position`. -/
noncomputable def moveForward (position target : Vec3) (distance : ℝ) :
    Option (Vec3 × Vec3) := do
  let direction ← normalizeJS (Vec3.sub target position)
  pure (Vec3.add position (Vec3.smul distance direction),
        Vec3.add target (Vec3.smul distance direction))

/-- `CameraSystem.moveRight` (src/unnamed/part_000): translates both
`position` and `target` by `cross(direction, up) * distance`. -/
noncomputable def moveRight (position target up : Vec3) (distance : ℝ) :
    Option (Vec3 × Vec3) := do
  let direction ← normalizeJS (Vec3.sub target position)
  let right := Vec3.cross direction up
  pure (Vec3.add position (Vec3.smul distance right),
        Vec3.add target (Vec3.smul distance right))

/-- The normalized camera direction used at the start of
`Controls.rotateCamera` (src/webgpu/ui/controls.js): `(target - position)`
divided by its length (junk value when the length is zero; the callers
guard on the length). -/
noncomputable def rcDir (position target : Vec3) : Vec3 :=
  Vec3.smul (Vec3.length (Vec3.sub target position))⁻¹ (Vec3.sub target position)

/-- The yaw-rotated direction `newDirYaw = direction*cos(yaw) + right*sin(yaw)`
of `Controls.rotateCamera`, with `right = cross(direction, up)`. -/
noncomputable def rcYawDir (position target up : Vec3) (yaw : ℝ) : Vec3 :=
  Vec3.add (Vec3.smul (Real.cos yaw) (rcDir position target))
    (Vec3.smul (Real.sin yaw) (Vec3.cross (rcDir position target) up))

/-- The clamp guard of `Controls.rotateCamera`:
`Math.abs(asin(newDirYaw[1]) + pitch) < 85 * PI / 180`. -/
noncomputable def rcGuard (position target up : Vec3) (yaw pitch : ℝ) : Prop :=
  |Real.arcsin (rcYawDir position target up yaw).y + pitch| < 85 * Real.pi / 180

/-- `Controls.rotateCamera` (src/webgpu/ui/controls.js, lines 247-308):
returns the new `camera.target`; `position` is unchanged by the code.
`none` models the NaN poses produced when a division by a zero length
occurs. -/
noncomputable def rotateCamera (position target up : Vec3) (yaw pitch : ℝ) :
    Option Vec3 :=
  if Vec3.length (Vec3.sub target position) = 0 then none
  else
    let w := rcYawDir position target up yaw
    let dirv :=
      if rcGuard position target up yaw pitch then
        Vec3.add (Vec3.smul (Real.cos pitch) w)
          (Vec3.smul (Real.sin pitch) (Vec3.cross (Vec3.cross (rcDir position target) up) w))
      else w
    if Vec3.length dirv = 0 then none
    else some (Vec3.add position (Vec3.smul 5 (Vec3.smul (Vec3.length dirv)⁻¹ dirv)))

/-! ## Data records and the layout engine (src/webgpu/core/processor.js) -/

/-- A PubMed record as consumed by the core: `PMID`, `PubYear` and `Source`
string fields (the other CSV fields are never read by the core). -/
structure Article where
  PMID : String
  PubYear : String
  Source : String
deriving DecidableEq, Repr

/-- Numeric value of a leading decimal-digit run. -/
def digitsToNat (cs : List Char) : ℕ :=
  cs.foldl (fun a c => a * 10 + (c.toNat - 48)) 0

/-- JS `parseInt` restricted to the inputs the pipeline feeds it (an optional
leading minus sign followed by decimal digits): `none` models the `NaN`
result on a string with no leading digits. -/
def jsParseInt (s : String) : Option ℤ :=
  match s.data with
  | '-' :: rest =>
      let ds := rest.takeWhile Char.isDigit
      if ds.isEmpty then none else some (-(digitsToNat ds : ℤ))
  | cs =>
      let ds := cs.takeWhile Char.isDigit
      if ds.isEmpty then none else some (digitsToNat ds : ℤ)

/-- `parseInt(article.PubYear) || 2000`: the JS `||` replaces both `NaN`
(unparseable) and `0` by the default year `2000`. -/
def yearOf (a : Article) : ℤ :=
  match jsParseInt a.PubYear with
  | some y => if y = 0 then 2000 else y
  | none => 2000

/-- `DataProcessor.calculateColor`: `minYear = 1950`,
`maxYear = new Date().getFullYear()` (passed here as the parameter
`currentYear`), normalized key clamped to `[0,1]`, color
`(normalized, 0.2, 1 - normalized)`.  `none` models the division by a zero
year range. -/
noncomputable def calculateColor (currentYear : ℤ) (a : Article) : Option Vec3 :=
  let year := yearOf a
  let minYear : ℤ := 1950
  if ((currentYear - minYear : ℤ) : ℝ) = 0 then none
  else
    let normalized : ℝ :=
      min 1 (max 0 (((year - minYear : ℤ) : ℝ) / ((currentYear - minYear : ℤ) : ℝ)))
    some ⟨normalized, 0.2, 1 - normalized⟩

/-- `Math.ceil(Math.sqrt(n))` on a natural count: the least `k` with
`n ≤ k^2`. -/
def ceilSqrt (n : ℕ) : ℕ :=
  if n = 0 then 0 else Nat.sqrt (n - 1) + 1

/-- `DataProcessor.positionByGrid`: `gridSize = ceil(sqrt(instanceCount))`,
`x = (index % gridSize - gridSize/2) * 2.5`,
`z = (floor(index / gridSize) - gridSize/2) * 2.5`, `y = 0`.
`none` models the `NaN` of the JS `index % 0` when the count is zero
(unreachable from `processData`, whose loop is then empty). -/
noncomputable def positionByGrid (instanceCount index : ℕ) : Option Vec3 :=
  let gridSize := ceilSqrt instanceCount
  if gridSize = 0 then none
  else
    some ⟨((index % gridSize : ℕ) - (gridSize : ℝ) / 2) * 2.5, 0,
          ((index / gridSize : ℕ) - (gridSize : ℝ) / 2) * 2.5⟩

/-- JS `findIndex`: the first index satisfying the predicate, `-1` if none. -/
def jsFindIndex (p : α → Bool) (l : List α) : ℤ :=
  match l.findIdx? p with
  | some i => (i : ℤ)
  | none => -1

/-- JS `indexOf`: the first index of the element, `-1` if absent. -/
def jsIndexOf [BEq α] (a : α) (l : List α) : ℤ :=
  match l.indexOf? a with
  | some i => (i : ℤ)
  | none => -1

/-- `DataProcessor.positionByYear`: x-offset `(year - 1990) * 3`, y the rank
of the article among the records sharing its raw `PubYear` string times 1.5
(the JS `findIndex` result, `-1` when absent), `z = 0`. -/
noncomputable def positionByYear (data : List Article) (article : Article) : Vec3 :=
  let year := yearOf article
  let yearOffset : ℝ := ((year - 1990 : ℤ) : ℝ) * 3
  let yearData := data.filter (fun a => a.PubYear = article.PubYear)
  let yearIndex := jsFindIndex (fun a => a.PMID = article.PMID) yearData
  ⟨yearOffset, (yearIndex : ℝ) * 1.5, 0⟩

/-- `DataProcessor.positionByJournal`: distinct sources in first-occurrence
order, angle `(journalIndex / journals.length) * 2π`, radius 15, random
altitude in `[0,5)`.  `none` models the division by zero (then `cos(NaN)`)
when the data set is empty. -/
noncomputable def positionByJournal (data : List Article) (article : Article)
    (rand : ℝ) : Option Vec3 :=
  let journals := (data.map (·.Source)).dedup
  if journals.length = 0 then none
  else
    let journalIndex := jsIndexOf article.Source journals
    let angle : ℝ := ((journalIndex : ℝ) / (journals.length : ℝ)) * Real.pi * 2
    some ⟨Real.cos angle * 15, rand * 5, Real.sin angle * 15⟩

/-- `Math.ceil(Math.sqrt(n / 4))` on a natural count, i.e.
`⌈√n / 2⌉ = (ceilSqrt n + 1) / 2` (for `√n ∈ (m-1, m]` with
`m = ceilSqrt n`, `⌈√n / 2⌉ = ⌈m / 2⌉`). -/
def clusterSize (instanceCount : ℕ) : ℕ :=
  (ceilSqrt instanceCount + 1) / 2

/-- `DataProcessor.positionByCluster`: sub-grid cell
`(floor(index / clusterSize), index % clusterSize)` at spacing 6 with
positional jitter from three `Math.random()` draws.  `none` models the
`NaN` of `index % 0` on an empty count. -/
noncomputable def positionByCluster (instanceCount index : ℕ)
    (r1 r2 r3 : ℝ) : Option Vec3 :=
  let c := clusterSize instanceCount
  if c = 0 then none
  else
    some ⟨((index / c : ℕ) : ℝ) * 6 + (r1 - 0.5) * 2,
          (r2 - 0.5) * 3,
          ((index % c : ℕ) : ℝ) * 6 + (r3 - 0.5) * 2⟩

/-- `DataProcessor.calculatePosition`: dispatch on the layout-mode string;
any unknown mode (and `'grid'`) falls through to the grid strategy. -/
noncomputable def calculatePosition (layoutMode : String) (data : List Article)
    (instanceCount index : ℕ) (article : Article) (r1 r2 r3 : ℝ) : Option Vec3 :=
  if layoutMode = "year" then some (positionByYear data article)
  else if layoutMode = "journal" then positionByJournal data article r1
  else if layoutMode = "cluster" then positionByCluster instanceCount index r1 r2 r3
  else positionByGrid instanceCount index

/-- One 8-float slot of the instance buffer written by
`DataProcessor.processData`: position, color, size, selected flag. -/
structure InstanceAttr where
  position : Vec3
  color : Vec3
  size : ℝ
  selected : ℝ

/-- The loop body of `DataProcessor.processData` over the record list,
carrying the running instance index; `rand i k` is the value of the `k`-th
`Math.random()` call while processing record `i`. -/
noncomputable def processAux (layoutMode : String) (currentYear : ℤ)
    (rand : ℕ → ℕ → ℝ) (data : List Article) (instanceCount : ℕ) :
    List Article → ℕ → Option (List InstanceAttr)
  | [], _ => some []
  | article :: rest, i => do
      let position ← calculatePosition layoutMode data instanceCount i article
        (rand i 0) (rand i 1) (rand i 2)
      let color ← calculateColor currentYear article
      let tail ← processAux layoutMode currentYear rand data instanceCount rest (i + 1)
      pure ({ position := position, color := color, size := 0.8, selected := 0 } :: tail)

/-- `DataProcessor.processData`: rebuilds the whole instance buffer from the
record list (size `0.8`, selected flag `0` for every instance); `none`
models a buffer containing non-finite floats. -/
noncomputable def processData (layoutMode : String) (currentYear : ℤ)
    (rand : ℕ → ℕ → ℝ) (data : List Article) : Option (List InstanceAttr) :=
  processAux layoutMode currentYear rand data data.length data 0

/-- `DataProcessor.recomputeLayout`: exactly one call to `processData`; no
other state is read or written. -/
noncomputable def recomputeLayout (layoutMode : String) (currentYear : ℤ)
    (rand : ℕ → ℕ → ℝ) (data : List Article) : Option (List InstanceAttr) :=
  processData layoutMode currentYear rand data

/-- The record-list update of `DataProcessor.deleteArticles`:
`data.filter(article => !pmids.includes(article.PMID))`; the new
`instanceCount` is the length of the result. -/
def deleteArticlesData (data : List Article) (pmids : List String) : List Article :=
  data.filter (fun article => !(pmids.contains article.PMID))

/-! ## Selection subsystem (src/webgpu/ui/controls.js `SelectionSystem`,
and the simplified variant in src/unnamed/part_002) -/

/-- CPU-visible state of the `SelectionSystem` of src/webgpu/ui/controls.js:
the selected-id set, the highlighted ("last-touched") id, and the contents
of the bit-packed GPU selection buffer (one byte per list entry). -/
structure SelState where
  selectedPMIDs : List String
  highlightedPMID : Option String
  selectionBytes : List ℕ
deriving DecidableEq, Repr

/-- JS `Set.add` on the list model: append if absent. -/
def setAdd (l : List String) (s : String) : List String :=
  if l.contains s then l else l ++ [s]

/-- JS `Set.delete` on the list model: remove all occurrences. -/
def setDelete (l : List String) (s : String) : List String :=
  l.filter (fun t => t ≠ s)

/-- `SelectionSystem.updateGPUSelection` (controls.js): read byte
`cubeIndex / 8`, set or clear bit `cubeIndex % 8`, write it back. -/
def updateGPUSelection (bytes : List ℕ) (cubeIndex : ℕ) (selected : Bool) :
    List ℕ :=
  let byteIndex := cubeIndex / 8
  let bitIndex := cubeIndex % 8
  let current := bytes.getD byteIndex 0
  let updated := if selected then current ||| (1 <<< bitIndex)
    else current &&& (255 - (1 <<< bitIndex))
  bytes.set byteIndex updated

/-- `SelectionSystem.selectByPMID` (controls.js, lines 671-694): look up the
instance index of the id; return `false` and leave all state untouched if it
is unknown; otherwise update the CPU set, the highlighted id and the single
affected bit of the selection buffer, and return `true`. -/
def selectByPMID (data : List Article) (st : SelState) (pmid : String)
    (selected : Bool) : Bool × SelState :=
  match data.findIdx? (fun article => article.PMID = pmid) with
  | none => (false, st)
  | some cubeIndex =>
      let selectedPMIDs :=
        if selected then setAdd st.selectedPMIDs pmid
        else setDelete st.selectedPMIDs pmid
      let highlightedPMID :=
        if selected then some pmid
        else if st.highlightedPMID = some pmid then none else st.highlightedPMID
      (true, { selectedPMIDs := selectedPMIDs,
               highlightedPMID := highlightedPMID,
               selectionBytes := updateGPUSelection st.selectionBytes cubeIndex selected })

/-- CPU-visible state of the simplified `SelectionSystem` of
src/unnamed/part_002: word-per-instance encoding, `none` while the
selection buffer is still deferred. -/
structure Sel2State where
  selectedPMIDs : List String
  highlightedPMID : Option String
  selectionData : Option (List ℕ)
deriving DecidableEq, Repr

/-- `SelectionSystem.selectByPMID` (src/unnamed/part_002, lines 44-88):
returns `false` untouched when the cube data is not loaded or the id is
unknown; otherwise updates the CPU set, the highlighted id, and (when
allocated) the word at the instance index. -/
def selectByPMID2 (cubeDataLoaded : Bool) (data : List Article)
    (st : Sel2State) (pmid : String) (selected : Bool) : Bool × Sel2State :=
  if ¬ cubeDataLoaded then (false, st)
  else
    match data.findIdx? (fun article => article.PMID = pmid) with
    | none => (false, st)
    | some cubeIndex =>
        let selectedPMIDs :=
          if selected then setAdd st.selectedPMIDs pmid
          else setDelete st.selectedPMIDs pmid
        let highlightedPMID :=
          if selected then some pmid
          else if st.highlightedPMID = some pmid then none else st.highlightedPMID
        (true, { selectedPMIDs := selectedPMIDs,
                 highlightedPMID := highlightedPMID,
                 selectionData :=
                   st.selectionData.map (fun d => d.set cubeIndex (if selected then 1 else 0)) })

/-- `SelectionSystem.deleteArticles` (controls.js, lines 847-853): drop the
deleted ids from the CPU set, then recreate the selection buffer zero-filled
at `ceil(newInstanceCount / 8)` bytes (`createSelectionBuffers`).  The
highlighted id is not touched by the code. -/
def selDeleteArticles (newInstanceCount : ℕ) (st : SelState)
    (pmids : List String) : SelState :=
  { selectedPMIDs := st.selectedPMIDs.filter (fun p => !(pmids.contains p)),
    highlightedPMID := st.highlightedPMID,
    selectionBytes := List.replicate ((newInstanceCount + 7) / 8) 0 }

/-- The combined delete operation: `DataProcessor.deleteArticles` (filter the
record list, update the count) followed by `SelectionSystem.deleteArticles`
(which reads the processor's new `instanceCount`).  The processor also
reruns `processData`; that rewrite is covered by `processData` itself. -/
def deleteArticles (data : List Article) (st : SelState) (pmids : List String) :
    List Article × SelState :=
  let data' := deleteArticlesData data pmids
  (data', selDeleteArticles data'.length st pmids)

/-! ## Ray-cast picking (`SelectionSystem.rayCast`, controls.js 772-815) -/

/-- The per-record sphere test of `rayCast`: sphere radius
`0.8 * 1.5`, quadratic coefficients from `oc = origin - position`,
`a = dot(dir, dir)`, `b = 2 dot(oc, dir)`, `c = dot(oc, oc) - r²`; when the
discriminant is nonnegative the code takes `t = (-b - √disc) / (2a)` and
accepts it only when positive. -/
noncomputable def hitT (origin direction position : Vec3) : Option ℝ :=
  let oc := Vec3.sub origin position
  let a := Vec3.dot direction direction
  let b := 2 * Vec3.dot oc direction
  let c := Vec3.dot oc oc - (0.8 * 1.5 : ℝ) ^ 2
  let disc := b ^ 2 - 4 * a * c
  if 0 ≤ disc then
    let t := (-b - Real.sqrt disc) / (2 * a)
    if 0 < t then some t else none
  else none

/-- The accumulator loop of `rayCast`: keep the hit with the strictly
smallest accepted `t` (the first such index on ties). -/
noncomputable def rayCastAux (origin direction : Vec3) :
    List Vec3 → ℕ → Option (ℕ × ℝ) → Option (ℕ × ℝ)
  | [], _, acc => acc
  | p :: ps, i, acc =>
      let acc' :=
        match hitT origin direction p, acc with
        | some t, none => some (i, t)
        | some t, some (j, s) => if t < s then (i, t) else (j, s)
        | none, _ => acc
      rayCastAux origin direction ps (i + 1) acc'

/-- `SelectionSystem.rayCast`: scan every record's current position, return
the index and distance of the closest accepted sphere hit, `none` when no
record is hit.  The positions are those `calculatePosition` yields for the
current layout; the scan itself only consumes the resulting list. -/
noncomputable def rayCast (origin direction : Vec3) (positions : List Vec3) :
    Option (ℕ × ℝ) :=
  rayCastAux origin direction positions 0 none

/-! ## Basic facts and concrete fixtures -/

theorem sub_add_cancel (p t δ : Vec3) :
    Vec3.sub (Vec3.add t δ) (Vec3.add p δ) = Vec3.sub t p := by
  cases p; cases t; cases δ
  simp only [Vec3.sub, Vec3.add, Vec3.mk.injEq]
  refine ⟨by ring, by ring, by ring⟩

/-- A record fixture used in concrete evaluations. -/
def articleA : Article := ⟨"a", "1950", "J"⟩

/-- A selection-state fixture with `"a"` selected and highlighted. -/
def selStA : SelState := ⟨["a"], some "a", [1]⟩

/-! ## C10: translation moves preserve the view direction -/

/-- C10: for every pose with a nondegenerate direction and every distance,
`moveForward` and `moveRight` translate `position` and `target` by the same
vector, so `target - position` (the view direction, hence the camera's
orientation) is unchanged. -/
theorem moveForward_moveRight_preserve_direction
    (position target up : Vec3) (distance : ℝ)
    (h : Vec3.sub target position ≠ Vec3.zero) :
    ((moveForward position target distance).isSome ∧
      ∀ p' t', moveForward position target distance = some (p', t') →
        Vec3.sub t' p' = Vec3.sub target position) ∧
    ((moveRight position target up distance).isSome ∧
      ∀ p' t', moveRight position target up distance = some (p', t') →
        Vec3.sub t' p' = Vec3.sub target position) := by
  have hlen : Vec3.length (Vec3.sub target position) ≠ 0 := by
    rw [Ne, Vec3.length_eq_zero_iff]; exact h
  have hn : normalizeJS (Vec3.sub target position) =
      some ⟨(Vec3.sub target position).x / Vec3.length (Vec3.sub target position),
            (Vec3.sub target position).y / Vec3.length (Vec3.sub target position),
            (Vec3.sub target position).z / Vec3.length (Vec3.sub target position)⟩ := by
    rw [normalizeJS, if_neg hlen]
  constructor
  · constructor
    · simp [moveForward, hn]
    · intro p' t' heq
      simp only [moveForward, hn, Option.bind_eq_bind, Option.some_bind] at heq
      obtain ⟨hp, ht⟩ := Prod.ext_iff.mp (Option.some.inj heq)
      dsimp only at hp ht
      rw [← hp, ← ht]
      exact sub_add_cancel _ _ _
  · constructor
    · simp [moveRight, hn]
    · intro p' t' heq
      simp only [moveRight, hn, Option.bind_eq_bind, Option.some_bind] at heq
      obtain ⟨hp, ht⟩ := Prod.ext_iff.mp (Option.some.inj heq)
      dsimp only at hp ht
      rw [← hp, ← ht]
      exact sub_add_cancel _ _ _

/-- Witness for C10 at a concrete pose. -/
theorem moveForward_moveRight_preserve_direction_witness :
    ((moveForward ⟨0,0,0⟩ ⟨0,0,3⟩ 2).isSome ∧
      ∀ p' t', moveForward ⟨0,0,0⟩ ⟨0,0,3⟩ 2 = some (p', t') →
        Vec3.sub t' p' = Vec3.sub ⟨0,0,3⟩ ⟨0,0,0⟩) ∧
    ((moveRight ⟨0,0,0⟩ ⟨0,0,3⟩ ⟨0,1,0⟩ 2).isSome ∧
      ∀ p' t', moveRight ⟨0,0,0⟩ ⟨0,0,3⟩ ⟨0,1,0⟩ 2 = some (p', t') →
        Vec3.sub t' p' = Vec3.sub ⟨0,0,3⟩ ⟨0,0,0⟩) :=
  moveForward_moveRight_preserve_direction ⟨0,0,0⟩ ⟨0,0,3⟩ ⟨0,1,0⟩ 2 (by
    intro hcontra
    have := congrArg Vec3.z hcontra
    norm_num [Vec3.sub, Vec3.zero] at this)

/-! ## C5: selecting an unknown id fails atomically -/

/-- C5: for an id carried by no current record, `selectByPMID` (in both the
controls.js and the part_002 variant of the selection system) returns
`false` and leaves the selected set, the highlighted id and the selection
encoding untouched. -/
theorem selectByPMID_unknown_id_atomic
    (data : List Article) (st : SelState) (st2 : Sel2State)
    (pmid : String) (selected loaded : Bool)
    (h : ∀ a ∈ data, a.PMID ≠ pmid) :
    selectByPMID data st pmid selected = (false, st) ∧
    selectByPMID2 loaded data st2 pmid selected = (false, st2) := by
  have hfind : data.findIdx? (fun article => article.PMID = pmid) = none := by
    rw [List.findIdx?_eq_none_iff]
    intro a ha
    simp [h a ha]
  constructor
  · simp [selectByPMID, hfind]
  · cases loaded <;> simp [selectByPMID2, hfind]

/-- Witness for C5 on a concrete one-record data set and unknown id. -/
theorem selectByPMID_unknown_id_atomic_witness :
    selectByPMID [articleA] ⟨[], none, [0]⟩ "zzz" true = (false, ⟨[], none, [0]⟩) ∧
    selectByPMID2 true [articleA] ⟨[], none, none⟩ "zzz" true =
      (false, ⟨[], none, none⟩) :=
  selectByPMID_unknown_id_atomic [articleA] ⟨[], none, [0]⟩ ⟨[], none, none⟩
    "zzz" true true (by
      intro a ha
      simp only [articleA, List.mem_singleton] at ha
      subst ha
      decide)

/-! ## C2: the delete operation -/

theorem length_filter_not (l : List α) (p : α → Bool) :
    (l.filter (fun a => !(p a))).length = l.length - (l.filter p).length := by
  induction l with
  | nil => rfl
  | cons a l ih =>
    have hle : (l.filter p).length ≤ l.length := List.length_filter_le p l
    cases hpa : p a <;> simp [List.filter_cons, hpa, ih] <;> omega

/-- C2 counterexample: deleting the highlighted record's id does not clear
the highlighted ("last-touched") id: with `"a"` highlighted and deleted,
`highlightedPMID` is still `some "a"` after the combined delete. -/
theorem deleteArticles_keeps_highlight_counterexample :
    (deleteArticles [articleA] selStA ["a"]).1 = [] ∧
    ("a" : String) ∈ (["a"] : List String) ∧
    (deleteArticles [articleA] selStA ["a"]).2.highlightedPMID = some "a" := by
  refine ⟨?_, ?_, ?_⟩ <;> decide

/-- C2 amended: after the combined delete, no deleted id remains in the
selected set, the new record count is the old count minus the number of
records whose id was deleted, the selection encoding is recreated
zero-filled at the new size — but the highlighted ("last-touched") id is
left unchanged, even when it was among the deleted ids. -/
theorem deleteArticles_spec (data : List Article) (st : SelState)
    (pmids : List String) :
    (∀ x ∈ pmids, x ∉ (deleteArticles data st pmids).2.selectedPMIDs) ∧
    (deleteArticles data st pmids).1.length
      = data.length - (data.filter (fun a => pmids.contains a.PMID)).length ∧
    (deleteArticles data st pmids).2.highlightedPMID = st.highlightedPMID ∧
    (deleteArticles data st pmids).2.selectionBytes
      = List.replicate (((deleteArticles data st pmids).1.length + 7) / 8) 0 := by
  refine ⟨?_, ?_, rfl, rfl⟩
  · intro x hx hmem
    rw [deleteArticles, selDeleteArticles] at hmem
    rw [List.mem_filter] at hmem
    simp at hmem
    exact hmem.2 hx
  · exact length_filter_not data _

/-- Witness for C2 at a concrete state: the deleted id is gone from the
selected set. -/
theorem deleteArticles_spec_witness :
    ("a" : String) ∈ (["a"] : List String) ∧
    ("a" : String) ∉ (deleteArticles [articleA] selStA ["a"]).2.selectedPMIDs :=
  ⟨by decide, (deleteArticles_spec [articleA] selStA ["a"]).1 "a" (by decide)⟩

/-! ## C6: degenerate camera basis produces NaNs, not a fallback -/

/-- C6 (code bug): at the degenerate pose `position = (0,0,0)`,
`target = (0,1,0)`, `up = (0,1,0)` — `forward` parallel to `up` —
`updateViewMatrix` divides the zero vector `cross(up, forward)` by its zero
length, producing NaN entries (`none`); there is no fallback to a previous
basis. -/
theorem updateViewMatrix_degenerate_nan :
    updateViewMatrix ⟨0,0,0⟩ ⟨0,1,0⟩ ⟨0,1,0⟩ = none := by
  have hsub : Vec3.sub ⟨0,1,0⟩ ⟨0,0,0⟩ = ⟨0,1,0⟩ := by
    simp [Vec3.sub]
  have hlen : Vec3.length (⟨0,1,0⟩ : Vec3) = 1 := by
    have : Vec3.dot ⟨0,1,0⟩ ⟨0,1,0⟩ = 1 := by norm_num [Vec3.dot]
    rw [Vec3.length, this, Real.sqrt_one]
  have hz : normalizeJS (⟨0,1,0⟩ : Vec3) = some ⟨0,1,0⟩ := by
    rw [normalizeJS, if_neg (by rw [hlen]; norm_num), hlen]
    norm_num
  have hcross : Vec3.cross (⟨0,1,0⟩ : Vec3) ⟨0,1,0⟩ = Vec3.zero := by
    norm_num [Vec3.cross, Vec3.zero]
  have hnz : normalizeJS Vec3.zero = none := by
    rw [normalizeJS, if_pos]
    rw [Vec3.length_eq_zero_iff]
  rw [updateViewMatrix, viewBasis, hsub, hz]
  simp only [Option.bind_eq_bind, Option.some_bind, hcross, hnz, Option.none_bind]

/-! ## C3: the grid strategy -/

theorem ceilSqrt_pos (n : ℕ) (hn : 1 ≤ n) : 1 ≤ ceilSqrt n := by
  rw [ceilSqrt, if_neg (by omega)]
  omega

theorem ceilSqrt_spec (n : ℕ) (hn : 1 ≤ n) :
    n ≤ (ceilSqrt n) ^ 2 ∧ (ceilSqrt n - 1) ^ 2 < n := by
  rw [ceilSqrt, if_neg (by omega)]
  constructor
  · have h := Nat.lt_succ_sqrt' (n - 1)
    rw [Nat.succ_eq_add_one] at h
    omega
  · have h := Nat.sqrt_le' (n - 1)
    rw [Nat.add_sub_cancel]
    omega

theorem ceilSqrt_four : ceilSqrt 4 = 2 := by
  have h1 : 1 ≤ Nat.sqrt 3 := Nat.le_sqrt.mpr (by norm_num)
  have h2 : Nat.sqrt 3 < 2 := Nat.sqrt_lt.mpr (by norm_num)
  rw [ceilSqrt, if_neg (by norm_num)]
  show Nat.sqrt 3 + 1 = 2
  omega

/-- C3 counterexample: with 4 records, `positionByGrid` puts record 0 at
`(-2.5, 0, -2.5)`, not at the claimed `(-1.25, 0, -1.25)`: the lattice is
offset by `gridSize/2` cells, not centered at the origin. -/
theorem positionByGrid_counterexample :
    positionByGrid 4 0 = some ⟨-(5/2 : ℝ), 0, -(5/2 : ℝ)⟩ ∧
    positionByGrid 4 0 ≠ some ⟨-(5/4 : ℝ), 0, -(5/4 : ℝ)⟩ := by
  have h4 : ceilSqrt 4 = 2 := ceilSqrt_four
  have heval : positionByGrid 4 0 = some ⟨-(5/2 : ℝ), 0, -(5/2 : ℝ)⟩ := by
    rw [positionByGrid, h4]
    norm_num
  refine ⟨heval, ?_⟩
  rw [heval]
  intro hcontra
  have := congrArg (fun o => (o.getD Vec3.zero).x) hcontra
  norm_num at this

/-- C3 amended: `positionByGrid` places record `i` on the square lattice of
side `ceilSqrt n` (the least side whose square holds all `n` records) at
cell `(i mod side, i div side)` with spacing 2.5, but offset by
`-1.25 * side` (the JS `- gridSize/2`), so the lattice is not centered at
the origin; for 4 records the positions are
`(-2.5,0,-2.5), (0,0,-2.5), (-2.5,0,0), (0,0,0)`. -/
theorem positionByGrid_spec :
    (∀ n i : ℕ, 1 ≤ n →
      positionByGrid n i =
        some ⟨((i % ceilSqrt n : ℕ) : ℝ) * 2.5 - (ceilSqrt n : ℝ) * 1.25, 0,
              ((i / ceilSqrt n : ℕ) : ℝ) * 2.5 - (ceilSqrt n : ℝ) * 1.25⟩) ∧
    (∀ n : ℕ, 1 ≤ n → n ≤ (ceilSqrt n) ^ 2 ∧ (ceilSqrt n - 1) ^ 2 < n) ∧
    positionByGrid 4 0 = some ⟨-(5/2 : ℝ), 0, -(5/2 : ℝ)⟩ ∧
    positionByGrid 4 1 = some ⟨0, 0, -(5/2 : ℝ)⟩ ∧
    positionByGrid 4 2 = some ⟨-(5/2 : ℝ), 0, 0⟩ ∧
    positionByGrid 4 3 = some ⟨0, 0, 0⟩ := by
  have h4 : ceilSqrt 4 = 2 := ceilSqrt_four
  refine ⟨?_, ceilSqrt_spec, ?_, ?_, ?_, ?_⟩
  · intro n i hn
    rw [positionByGrid, if_neg (by have := ceilSqrt_pos n hn; omega)]
    simp only [Option.some.injEq, Vec3.mk.injEq]
    refine ⟨by ring, by norm_num, by ring⟩
  all_goals rw [positionByGrid, h4]; norm_num

/-- Witness for C3 at `n = 4`, `i = 1`. -/
theorem positionByGrid_spec_witness :
    positionByGrid 4 1 =
      some ⟨((1 % ceilSqrt 4 : ℕ) : ℝ) * 2.5 - (ceilSqrt 4 : ℝ) * 1.25, 0,
            ((1 / ceilSqrt 4 : ℕ) : ℝ) * 2.5 - (ceilSqrt 4 : ℝ) * 1.25⟩ :=
  positionByGrid_spec.1 4 1 (by norm_num)

/-! ## C1: recompute does not reapply selection flags -/

theorem processAux_selected_zero (layoutMode : String) (currentYear : ℤ)
    (rand : ℕ → ℕ → ℝ) (data : List Article) (instanceCount : ℕ) :
    ∀ (sub : List Article) (i : ℕ) (attrs : List InstanceAttr),
      processAux layoutMode currentYear rand data instanceCount sub i = some attrs →
      ∀ attr ∈ attrs, attr.selected = 0 := by
  intro sub
  induction sub with
  | nil =>
    intro i attrs h attr hattr
    simp only [processAux, Option.some.injEq] at h
    subst h
    exact absurd hattr (List.not_mem_nil attr)
  | cons a rest ih =>
    intro i attrs h attr hattr
    rw [processAux] at h
    simp only [Option.bind_eq_bind, Option.bind_eq_some, Option.pure_def,
      Option.some.injEq] at h
    obtain ⟨pos, hpos, col, hcol, tail, htail, hattrs⟩ := h
    subst hattrs
    rcases List.mem_cons.mp hattr with h1 | h2
    · rw [h1]
    · exact ih (i + 1) tail htail attr h2

/-- C1 amended: `recomputeLayout` rewrites every instance with its
`selected` attribute equal to 0, regardless of the selection subsystem's
current set: selection flags are not reapplied after a re-layout (only the
CPU-side selected set survives, not the instance buffer flags). -/
theorem recomputeLayout_zeroes_selected (layoutMode : String) (currentYear : ℤ)
    (rand : ℕ → ℕ → ℝ) (data : List Article) (attrs : List InstanceAttr)
    (h : recomputeLayout layoutMode currentYear rand data = some attrs) :
    ∀ attr ∈ attrs, attr.selected = 0 :=
  processAux_selected_zero layoutMode currentYear rand data data.length data 0 attrs h

/-- The single instance attribute that `processData` produces for
`articleA` under the `year` strategy with year range 1950-1951. -/
def attrA : InstanceAttr := ⟨⟨-120, 0, 0⟩, ⟨0, 0.2, 1⟩, 0.8, 0⟩

theorem recompute_fixture_eval :
    recomputeLayout "year" 1951 (fun _ _ => (0 : ℝ)) [articleA] = some [attrA] := by
  have hyear : yearOf articleA = 1950 := by decide
  have hfind : jsFindIndex (fun a => a.PMID = articleA.PMID)
      (List.filter (fun a => a.PubYear = articleA.PubYear) [articleA]) = 0 := by decide
  have hpos : positionByYear [articleA] articleA = ⟨-120, 0, 0⟩ := by
    rw [positionByYear]
    rw [hyear, hfind]
    simp only [Vec3.mk.injEq]
    norm_num
  have hcol : calculateColor 1951 articleA = some ⟨0, 0.2, 1⟩ := by
    rw [calculateColor, hyear]
    norm_num
  rw [recomputeLayout, processData]
  show processAux "year" 1951 (fun _ _ => (0 : ℝ)) [articleA] 1 [articleA] 0 = some [attrA]
  rw [processAux]
  rw [calculatePosition, if_pos rfl, hpos, hcol]
  rw [processAux]
  rfl

/-- C1 counterexample: with `"a"` in the selection subsystem's current
selected set, `recomputeLayout` still rewrites record `"a"`'s instance with
`selected = 0`: the flag is not re-applied. -/
theorem recomputeLayout_drops_selection_counterexample :
    articleA.PMID ∈ selStA.selectedPMIDs ∧
    recomputeLayout "year" 1951 (fun _ _ => (0 : ℝ)) [articleA] = some [attrA] ∧
    attrA.selected ≠ 1 := by
  refine ⟨by decide, recompute_fixture_eval, ?_⟩
  rw [attrA]
  norm_num

/-- Witness for C1 on the concrete fixture. -/
theorem recomputeLayout_zeroes_selected_witness : attrA.selected = 0 :=
  recomputeLayout_zeroes_selected "year" 1951 (fun _ _ => (0 : ℝ)) [articleA]
    [attrA] recompute_fixture_eval attrA (List.mem_singleton.mpr rfl)

/-! ## C9: color is a clamped linear function of the record's year -/

theorem calculateColor_congr (currentYear : ℤ) (a b : Article)
    (h : yearOf a = yearOf b) :
    calculateColor currentYear a = calculateColor currentYear b := by
  rw [calculateColor, calculateColor, h]

theorem calculateColor_eq (currentYear : ℤ) (a : Article)
    (hD : ((currentYear - 1950 : ℤ) : ℝ) ≠ 0) :
    calculateColor currentYear a =
      some ⟨min 1 (max 0 (((yearOf a - 1950 : ℤ) : ℝ) / ((currentYear - 1950 : ℤ) : ℝ))),
            0.2,
            1 - min 1 (max 0 (((yearOf a - 1950 : ℤ) : ℝ) / ((currentYear - 1950 : ℤ) : ℝ)))⟩ := by
  simp only [calculateColor]
  rw [if_neg hD]

/-- C9: `calculateColor` is a function of the record's (parsed) year alone;
it is the linear interpolation between the fixed colors `(0, 0.2, 1)` (blue)
and `(1, 0.2, 0)` (red) keyed by `(year - 1950)/(currentYear - 1950)`
clamped to `[0,1]`; equal years give identical colors; a strictly later
year within the range gives a strictly larger red channel; an unparseable
year gets the color of the neutral year 2000. -/
theorem calculateColor_spec (currentYear : ℤ) (h : 1950 < currentYear) :
    (∀ a b : Article, yearOf a = yearOf b →
      calculateColor currentYear a = calculateColor currentYear b) ∧
    (∀ a : Article, ∃ t : ℝ, 0 ≤ t ∧ t ≤ 1 ∧
      t = min 1 (max 0 (((yearOf a - 1950 : ℤ) : ℝ) / ((currentYear - 1950 : ℤ) : ℝ))) ∧
      calculateColor currentYear a =
        some ⟨(1 - t) * 0 + t * 1, (1 - t) * 0.2 + t * 0.2, (1 - t) * 1 + t * 0⟩) ∧
    (∀ a b : Article, 1950 ≤ yearOf a → yearOf a < yearOf b → yearOf b ≤ currentYear →
      ∃ ca cb : Vec3, calculateColor currentYear a = some ca ∧
        calculateColor currentYear b = some cb ∧ ca.x < cb.x) ∧
    (∀ a : Article, jsParseInt a.PubYear = none →
      calculateColor currentYear a = calculateColor currentYear ⟨a.PMID, "2000", a.Source⟩) := by
  have hD0 : (0 : ℝ) < ((currentYear - 1950 : ℤ) : ℝ) := by
    exact_mod_cast (by omega : (0 : ℤ) < currentYear - 1950)
  have hD : ((currentYear - 1950 : ℤ) : ℝ) ≠ 0 := ne_of_gt hD0
  refine ⟨fun a b hab => calculateColor_congr currentYear a b hab, ?_, ?_, ?_⟩
  · intro a
    refine ⟨_, le_min (by norm_num) (le_max_left 0 _), min_le_left _ _, rfl, ?_⟩
    rw [calculateColor_eq currentYear a hD]
    simp only [Option.some.injEq, Vec3.mk.injEq]
    refine ⟨by ring, by ring, by ring⟩
  · intro a b ha hab hb
    have hqa0 : (0 : ℝ) ≤ ((yearOf a - 1950 : ℤ) : ℝ) / ((currentYear - 1950 : ℤ) : ℝ) :=
      div_nonneg (by exact_mod_cast (by omega : (0 : ℤ) ≤ yearOf a - 1950)) hD0.le
    have hqa1 : ((yearOf a - 1950 : ℤ) : ℝ) / ((currentYear - 1950 : ℤ) : ℝ) ≤ 1 :=
      (div_le_one hD0).mpr (by exact_mod_cast (by omega : yearOf a - 1950 ≤ currentYear - 1950))
    have hqb0 : (0 : ℝ) ≤ ((yearOf b - 1950 : ℤ) : ℝ) / ((currentYear - 1950 : ℤ) : ℝ) :=
      div_nonneg (by exact_mod_cast (by omega : (0 : ℤ) ≤ yearOf b - 1950)) hD0.le
    have hqb1 : ((yearOf b - 1950 : ℤ) : ℝ) / ((currentYear - 1950 : ℤ) : ℝ) ≤ 1 :=
      (div_le_one hD0).mpr (by exact_mod_cast (by omega : yearOf b - 1950 ≤ currentYear - 1950))
    refine ⟨_, _, calculateColor_eq currentYear a hD, calculateColor_eq currentYear b hD, ?_⟩
    show min 1 (max 0 _) < min 1 (max 0 _)
    rw [max_eq_right hqa0, min_eq_right hqa1, max_eq_right hqb0, min_eq_right hqb1]
    rw [div_lt_div_iff_of_pos_right hD0]
    exact_mod_cast (by omega : yearOf a - 1950 < yearOf b - 1950)
  · intro a hnone
    have h1 : yearOf a = 2000 := by rw [yearOf, hnone]
    have hp : jsParseInt "2000" = some 2000 := by decide
    have h2 : yearOf ⟨a.PMID, "2000", a.Source⟩ = 2000 := by
      simp only [yearOf]
      rw [hp]
      norm_num
    exact calculateColor_congr currentYear _ _ (by rw [h1, h2])

/-- Witness for C9 at year range 1950-2026 with years 1990 < 2010. -/
theorem calculateColor_spec_witness :
    ∃ ca cb : Vec3, calculateColor 2026 ⟨"p", "1990", "x"⟩ = some ca ∧
      calculateColor 2026 ⟨"q", "2010", "y"⟩ = some cb ∧ ca.x < cb.x :=
  (calculateColor_spec 2026 (by norm_num)).2.2.1 ⟨"p", "1990", "x"⟩ ⟨"q", "2010", "y"⟩
    (by decide) (by decide) (by decide)

/-! ## C7: the layout engine is total with in-range colors -/

theorem calculateColor_bounds (currentYear : ℤ) (a : Article)
    (h : 1950 < currentYear) :
    ∃ c : Vec3, calculateColor currentYear a = some c ∧
      (0 ≤ c.x ∧ c.x ≤ 1) ∧ (0 ≤ c.y ∧ c.y ≤ 1) ∧ (0 ≤ c.z ∧ c.z ≤ 1) := by
  have hD0 : (0 : ℝ) < ((currentYear - 1950 : ℤ) : ℝ) := by
    exact_mod_cast (by omega : (0 : ℤ) < currentYear - 1950)
  refine ⟨_, calculateColor_eq currentYear a (ne_of_gt hD0), ?_, ?_, ?_⟩
  · exact ⟨le_min (by norm_num) (le_max_left 0 _), min_le_left _ _⟩
  · norm_num
  · constructor
    · have := min_le_left (1 : ℝ)
        (max 0 (((yearOf a - 1950 : ℤ) : ℝ) / ((currentYear - 1950 : ℤ) : ℝ)))
      simp only []
      linarith
    · have := le_min (by norm_num : (0:ℝ) ≤ 1)
        (le_max_left 0 (((yearOf a - 1950 : ℤ) : ℝ) / ((currentYear - 1950 : ℤ) : ℝ)))
      simp only []
      linarith

theorem calculatePosition_isSome (layoutMode : String) (data : List Article)
    (instanceCount index : ℕ) (a : Article) (r1 r2 r3 : ℝ)
    (hlen : data.length = instanceCount) (hn : 1 ≤ instanceCount) :
    ∃ v, calculatePosition layoutMode data instanceCount index a r1 r2 r3 = some v := by
  rw [calculatePosition]
  split_ifs with h1 h2 h3
  · exact ⟨_, rfl⟩
  · rw [positionByJournal]
    have hne : ((data.map (·.Source)).dedup).length ≠ 0 := by
      intro hc
      rw [List.length_eq_zero, List.dedup_eq_nil, List.map_eq_nil_iff] at hc
      subst hc
      simp at hlen
      omega
    rw [if_neg hne]
    exact ⟨_, rfl⟩
  · rw [positionByCluster]
    have hc : clusterSize instanceCount ≠ 0 := by
      have := ceilSqrt_pos instanceCount hn
      rw [clusterSize]
      omega
    rw [if_neg hc]
    exact ⟨_, rfl⟩
  · rw [positionByGrid]
    have := ceilSqrt_pos instanceCount hn
    rw [if_neg (by omega)]
    exact ⟨_, rfl⟩

theorem processAux_some (layoutMode : String) (currentYear : ℤ)
    (rand : ℕ → ℕ → ℝ) (data : List Article) (instanceCount : ℕ)
    (hlen : data.length = instanceCount) (hn : 1 ≤ instanceCount)
    (hcy : 1950 < currentYear) :
    ∀ (sub : List Article) (i : ℕ),
      ∃ attrs, processAux layoutMode currentYear rand data instanceCount sub i = some attrs ∧
        attrs.length = sub.length ∧
        ∀ attr ∈ attrs,
          (0 ≤ attr.color.x ∧ attr.color.x ≤ 1) ∧
          (0 ≤ attr.color.y ∧ attr.color.y ≤ 1) ∧
          (0 ≤ attr.color.z ∧ attr.color.z ≤ 1) := by
  intro sub
  induction sub with
  | nil =>
    intro i
    exact ⟨[], rfl, rfl, by intro attr hattr; exact absurd hattr (List.not_mem_nil attr)⟩
  | cons a rest ih =>
    intro i
    obtain ⟨v, hv⟩ := calculatePosition_isSome layoutMode data instanceCount i a
      (rand i 0) (rand i 1) (rand i 2) hlen hn
    obtain ⟨c, hc, hcb⟩ := calculateColor_bounds currentYear a hcy
    obtain ⟨tail, htail, htlen, htb⟩ := ih (i + 1)
    refine ⟨{ position := v, color := c, size := 0.8, selected := 0 } :: tail, ?_, ?_, ?_⟩
    · rw [processAux, hv, hc, htail]
      rfl
    · simp [htlen]
    · intro attr hattr
      rcases List.mem_cons.mp hattr with hh | ht
      · rw [hh]
        exact hcb
      · exact htb attr ht

/-- C7: for every record sequence and strategy, `processData` yields exactly
one well-defined (finite, non-NaN) attribute tuple per record, with every
color component in `[0,1]`; the empty record set yields the empty attribute
sequence rather than an error. -/
theorem processData_total (layoutMode : String) (currentYear : ℤ)
    (rand : ℕ → ℕ → ℝ) (data : List Article) (hcy : 1950 < currentYear) :
    (∃ attrs, processData layoutMode currentYear rand data = some attrs ∧
      attrs.length = data.length ∧
      ∀ attr ∈ attrs,
        (0 ≤ attr.color.x ∧ attr.color.x ≤ 1) ∧
        (0 ≤ attr.color.y ∧ attr.color.y ≤ 1) ∧
        (0 ≤ attr.color.z ∧ attr.color.z ≤ 1)) ∧
    processData layoutMode currentYear rand [] = some [] := by
  constructor
  · cases data with
    | nil =>
      exact ⟨[], rfl, rfl, by intro attr hattr; exact absurd hattr (List.not_mem_nil attr)⟩
    | cons a rest =>
      exact processAux_some layoutMode currentYear rand (a :: rest) (a :: rest).length
        rfl (by simp) hcy (a :: rest) 0
  · rfl

/-- Witness for C7 on a concrete one-record data set under `grid`. -/
theorem processData_total_witness :
    (∃ attrs, processData "grid" 2026 (fun _ _ => (0 : ℝ)) [articleA] = some attrs ∧
      attrs.length = [articleA].length ∧
      ∀ attr ∈ attrs,
        (0 ≤ attr.color.x ∧ attr.color.x ≤ 1) ∧
        (0 ≤ attr.color.y ∧ attr.color.y ≤ 1) ∧
        (0 ≤ attr.color.z ∧ attr.color.z ≤ 1)) ∧
    processData "grid" 2026 (fun _ _ => (0 : ℝ)) [] = some [] :=
  processData_total "grid" 2026 (fun _ _ => (0 : ℝ)) [articleA] (by norm_num)

/-! ## C4: ray-cast picking -/

theorem rayCastAux_cons_none (o d p : Vec3) (ps : List Vec3) (i : ℕ)
    (acc : Option (ℕ × ℝ)) (hh : hitT o d p = none) :
    rayCastAux o d (p :: ps) i acc = rayCastAux o d ps (i + 1) acc := by
  simp only [rayCastAux, hh]

theorem rayCastAux_cons_some_none (o d p : Vec3) (ps : List Vec3) (i : ℕ)
    (t : ℝ) (hh : hitT o d p = some t) :
    rayCastAux o d (p :: ps) i none = rayCastAux o d ps (i + 1) (some (i, t)) := by
  simp only [rayCastAux, hh]

theorem rayCastAux_cons_some_lt (o d p : Vec3) (ps : List Vec3) (i j : ℕ)
    (t s : ℝ) (hh : hitT o d p = some t) (hts : t < s) :
    rayCastAux o d (p :: ps) i (some (j, s)) =
      rayCastAux o d ps (i + 1) (some (i, t)) := by
  simp only [rayCastAux, hh]
  rw [if_pos hts]

theorem rayCastAux_cons_some_ge (o d p : Vec3) (ps : List Vec3) (i j : ℕ)
    (t s : ℝ) (hh : hitT o d p = some t) (hts : ¬ t < s) :
    rayCastAux o d (p :: ps) i (some (j, s)) =
      rayCastAux o d ps (i + 1) (some (j, s)) := by
  simp only [rayCastAux, hh]
  rw [if_neg hts]

theorem rayCastAux_some_ne_none (o d : Vec3) :
    ∀ (ps : List Vec3) (i : ℕ) (x : ℕ × ℝ),
      rayCastAux o d ps i (some x) ≠ none := by
  intro ps
  induction ps with
  | nil => intro i x h; exact Option.noConfusion h
  | cons p ps ih =>
    intro i x h
    obtain ⟨j, s⟩ := x
    cases hh : hitT o d p with
    | none =>
      rw [rayCastAux_cons_none o d p ps i _ hh] at h
      exact ih _ _ h
    | some t =>
      by_cases hts : t < s
      · rw [rayCastAux_cons_some_lt o d p ps i j t s hh hts] at h
        exact ih _ _ h
      · rw [rayCastAux_cons_some_ge o d p ps i j t s hh hts] at h
        exact ih _ _ h

theorem rayCastAux_eq_none_iff (o d : Vec3) :
    ∀ (ps : List Vec3) (i : ℕ) (acc : Option (ℕ × ℝ)),
      rayCastAux o d ps i acc = none ↔
        acc = none ∧ ∀ p ∈ ps, hitT o d p = none := by
  intro ps
  induction ps with
  | nil => intro i acc; simp [rayCastAux]
  | cons p ps ih =>
    intro i acc
    cases hh : hitT o d p with
    | none =>
      rw [rayCastAux_cons_none o d p ps i acc hh, ih]
      simp [hh]
    | some t =>
      constructor
      · intro h
        exfalso
        cases acc with
        | none =>
          rw [rayCastAux_cons_some_none o d p ps i t hh] at h
          exact rayCastAux_some_ne_none o d ps (i + 1) (i, t) h
        | some x =>
          obtain ⟨j, s⟩ := x
          by_cases hts : t < s
          · rw [rayCastAux_cons_some_lt o d p ps i j t s hh hts] at h
            exact rayCastAux_some_ne_none o d ps (i + 1) (i, t) h
          · rw [rayCastAux_cons_some_ge o d p ps i j t s hh hts] at h
            exact rayCastAux_some_ne_none o d ps (i + 1) (j, s) h
      · rintro ⟨-, h2⟩
        have := h2 p (List.mem_cons_self p ps)
        rw [hh] at this
        exact Option.noConfusion this

theorem rayCastAux_spec (o d : Vec3) :
    ∀ (ps : List Vec3) (i : ℕ) (acc : Option (ℕ × ℝ)) (j : ℕ) (t : ℝ),
      rayCastAux o d ps i acc = some (j, t) →
        (acc = some (j, t) ∨
          ∃ k p, ps.get? k = some p ∧ j = i + k ∧ hitT o d p = some t) ∧
        (∀ j' s, acc = some (j', s) → t ≤ s) ∧
        (∀ k p s, ps.get? k = some p → hitT o d p = some s → t ≤ s) := by
  intro ps
  induction ps with
  | nil =>
    intro i acc j t h
    rw [rayCastAux] at h
    refine ⟨Or.inl h, ?_, ?_⟩
    · intro j' s hacc
      rw [h] at hacc
      obtain ⟨-, h2⟩ := Prod.mk.injEq .. |>.mp (Option.some.inj hacc)
      exact le_of_eq h2
    · intro k p s hk
      simp at hk
  | cons p ps ih =>
    intro i acc j t h
    cases hh : hitT o d p with
    | none =>
      rw [rayCastAux_cons_none o d p ps i acc hh] at h
      obtain ⟨hmem, haccmin, hcandmin⟩ := ih (i + 1) acc j t h
      refine ⟨?_, haccmin, ?_⟩
      · rcases hmem with h1 | ⟨k, q, hk, hj, hq⟩
        · exact Or.inl h1
        · exact Or.inr ⟨k + 1, q, by simpa using hk, by omega, hq⟩
      · intro k q s hk hq
        cases k with
        | zero =>
          simp only [List.get?_cons_zero, Option.some.injEq] at hk
          rw [← hk, hh] at hq
          exact Option.noConfusion hq
        | succ k' =>
          exact hcandmin k' q s (by simpa using hk) hq
    | some t₀ =>
      have step :
          ∀ (acc' : Option (ℕ × ℝ)) (i₀ : ℕ) (s₀ : ℝ),
            rayCastAux o d ps (i + 1) (some (i₀, s₀)) = some (j, t) →
            (i₀ = i ∧ s₀ = t₀ ∨ acc = some (i₀, s₀)) →
            s₀ ≤ t₀ →
            (∀ j' s, acc = some (j', s) → s₀ ≤ s) →
            (acc = some (j, t) ∨
              ∃ k q, (p :: ps).get? k = some q ∧ j = i + k ∧ hitT o d q = some t) ∧
            (∀ j' s, acc = some (j', s) → t ≤ s) ∧
            (∀ k q s, (p :: ps).get? k = some q → hitT o d q = some s → t ≤ s) := by
        intro acc' i₀ s₀ hrec hacc' hle haccmin₀
        obtain ⟨hmem, haccmin, hcandmin⟩ := ih (i + 1) (some (i₀, s₀)) j t hrec
        have htle : t ≤ s₀ := haccmin i₀ s₀ rfl
        refine ⟨?_, ?_, ?_⟩
        · rcases hmem with h1 | ⟨k, q, hk, hj, hq⟩
          · obtain ⟨hj₀, ht₀⟩ := Prod.mk.injEq .. |>.mp (Option.some.inj h1)
            rcases hacc' with ⟨rfl, rfl⟩ | hacc1
            · exact Or.inr ⟨0, p, rfl, by omega, by rw [hh, ht₀]⟩
            · exact Or.inl (by rw [hacc1, hj₀, ht₀])
          · exact Or.inr ⟨k + 1, q, by simpa using hk, by omega, hq⟩
        · intro j' s hacc
          exact le_trans htle (haccmin₀ j' s hacc)
        · intro k q s hk hq
          cases k with
          | zero =>
            simp only [List.get?_cons_zero, Option.some.injEq] at hk
            rw [← hk, hh] at hq
            obtain rfl := Option.some.inj hq
            exact le_trans htle hle
          | succ k' =>
            exact hcandmin k' q s (by simpa using hk) hq
      cases acc with
      | none =>
        rw [rayCastAux_cons_some_none o d p ps i t₀ hh] at h
        have hres := step (some (i, t₀)) i t₀ h (Or.inl ⟨rfl, rfl⟩) le_rfl
          (by intro j' s hacc; exact Option.noConfusion hacc)
        refine ⟨?_, ?_, hres.2.2⟩
        · rcases hres.1 with h1 | h2
          · exact Option.noConfusion h1
          · exact Or.inr h2
        · intro j' s hacc
          exact Option.noConfusion hacc
      | some x =>
        obtain ⟨j₀, s₀⟩ := x
        by_cases hts : t₀ < s₀
        · rw [rayCastAux_cons_some_lt o d p ps i j₀ t₀ s₀ hh hts] at h
          exact step (some (i, t₀)) i t₀ h (Or.inl ⟨rfl, rfl⟩) le_rfl
            (by
              intro j' s hacc
              obtain ⟨-, h2⟩ := Prod.mk.injEq .. |>.mp (Option.some.inj hacc)
              rw [← h2]
              exact hts.le)
        · rw [rayCastAux_cons_some_ge o d p ps i j₀ t₀ s₀ hh hts] at h
          exact step (some (j₀, s₀)) j₀ s₀ h (Or.inr rfl) (not_lt.mp hts)
            (by
              intro j' s hacc
              obtain ⟨-, h2⟩ := Prod.mk.injEq .. |>.mp (Option.some.inj hacc)
              exact le_of_eq h2)

theorem hitT_center (o d : Vec3) (hd : 0 < Vec3.dot d d) : hitT o d o = none := by
  have hoc : Vec3.sub o o = Vec3.zero := by
    cases o
    simp [Vec3.sub, Vec3.zero]
  have hdz : Vec3.dot Vec3.zero d = 0 := by simp [Vec3.dot, Vec3.zero]
  have hzz : Vec3.dot Vec3.zero Vec3.zero = 0 := by simp [Vec3.dot, Vec3.zero]
  simp only [hitT, hoc, hdz, hzz]
  split_ifs with h1 h2
  · exfalso
    rw [div_pos_iff] at h2
    rcases h2 with ⟨hnum, -⟩ | ⟨-, hden⟩
    · nlinarith [Real.sqrt_nonneg ((2 * (0:ℝ)) ^ 2 - 4 * Vec3.dot d d * (0 - (0.8 * 1.5 : ℝ) ^ 2))]
    · nlinarith
  · rfl
  · rfl

theorem hitT_eval_some (o d p : Vec3) (r t : ℝ) (hr : 0 ≤ r)
    (hdisc : (2 * Vec3.dot (Vec3.sub o p) d) ^ 2 -
      4 * Vec3.dot d d *
        (Vec3.dot (Vec3.sub o p) (Vec3.sub o p) - (0.8 * 1.5 : ℝ) ^ 2) = r ^ 2)
    (ht : (-(2 * Vec3.dot (Vec3.sub o p) d) - r) / (2 * Vec3.dot d d) = t)
    (htpos : 0 < t) :
    hitT o d p = some t := by
  simp only [hitT]
  rw [hdisc, Real.sqrt_sq hr, ht]
  rw [if_pos (by positivity), if_pos htpos]

theorem hitT_eval_none (o d p : Vec3) (r t : ℝ) (hr : 0 ≤ r)
    (hdisc : (2 * Vec3.dot (Vec3.sub o p) d) ^ 2 -
      4 * Vec3.dot d d *
        (Vec3.dot (Vec3.sub o p) (Vec3.sub o p) - (0.8 * 1.5 : ℝ) ^ 2) = r ^ 2)
    (ht : (-(2 * Vec3.dot (Vec3.sub o p) d) - r) / (2 * Vec3.dot d d) = t)
    (htnonpos : t ≤ 0) :
    hitT o d p = none := by
  simp only [hitT]
  rw [hdisc, Real.sqrt_sq hr, ht]
  rw [if_pos (by positivity), if_neg (not_lt.mpr htnonpos)]

theorem hitT_five : hitT ⟨0,0,0⟩ ⟨0,0,1⟩ ⟨0,0,5⟩ = some (19/5) := by
  apply hitT_eval_some ⟨0,0,0⟩ ⟨0,0,1⟩ ⟨0,0,5⟩ (12/5) (19/5) (by norm_num)
  · norm_num [Vec3.dot, Vec3.sub]
  · norm_num [Vec3.dot, Vec3.sub]
  · norm_num

theorem hitT_ten : hitT ⟨0,0,0⟩ ⟨0,0,1⟩ ⟨0,0,10⟩ = some (44/5) := by
  apply hitT_eval_some ⟨0,0,0⟩ ⟨0,0,1⟩ ⟨0,0,10⟩ (12/5) (44/5) (by norm_num)
  · norm_num [Vec3.dot, Vec3.sub]
  · norm_num [Vec3.dot, Vec3.sub]
  · norm_num

/-- C4 amended: `rayCast` tests each record against a sphere of radius
`0.8 * 1.5` at its position via the quadratic `a t² + b t + c = 0`, but
takes only the smaller root `(-b - √disc)/(2a)` and accepts it only when it
is positive (captured by `hitT`); it returns the record with the smallest
accepted root (`none` exactly when no record has one); a ray starting at a
record's center yields no hit for that record; of two colinear intersected
records the nearer one wins. -/
theorem rayCast_spec (origin direction : Vec3) (positions : List Vec3) :
    (rayCast origin direction positions = none ↔
      ∀ p ∈ positions, hitT origin direction p = none) ∧
    (∀ j t, rayCast origin direction positions = some (j, t) →
      (∃ p, positions.get? j = some p ∧ hitT origin direction p = some t) ∧
      ∀ k p s, positions.get? k = some p → hitT origin direction p = some s → t ≤ s) ∧
    (0 < Vec3.dot direction direction → hitT origin direction origin = none) ∧
    rayCast ⟨0,0,0⟩ ⟨0,0,1⟩ [⟨0,0,5⟩, ⟨0,0,10⟩] = some (0, 19/5) := by
  refine ⟨?_, ?_, hitT_center origin direction, ?_⟩
  · rw [rayCast, rayCastAux_eq_none_iff]
    simp
  · intro j t h
    rw [rayCast] at h
    obtain ⟨hmem, -, hcandmin⟩ := rayCastAux_spec origin direction positions 0 none j t h
    constructor
    · rcases hmem with h1 | ⟨k, p, hk, hj, hp⟩
      · exact Option.noConfusion h1
      · exact ⟨p, by rw [hj, Nat.zero_add]; exact hk, hp⟩
    · exact fun k p s hk hp => hcandmin k p s hk hp
  · rw [rayCast,
      rayCastAux_cons_some_none ⟨0,0,0⟩ ⟨0,0,1⟩ ⟨0,0,5⟩ [⟨0,0,10⟩] 0 (19/5) hitT_five,
      rayCastAux_cons_some_ge ⟨0,0,0⟩ ⟨0,0,1⟩ ⟨0,0,10⟩ [] 1 0 (44/5) (19/5) hitT_ten
        (by norm_num)]
    rfl

/-- Witness for C4: the center-origin clause at a concrete ray. -/
theorem rayCast_spec_witness : hitT ⟨0,0,7⟩ ⟨0,0,1⟩ ⟨0,0,7⟩ = none :=
  (rayCast_spec ⟨0,0,7⟩ ⟨0,0,1⟩ []).2.2.1 (by norm_num [Vec3.dot])

/-- C4 counterexample: with one record centered at the ray's origin, the
sphere quadratic has the positive root `6/5` (the claim's "smallest positive
root" would make the record the nearest hit), yet `rayCast` returns
nothing: the code takes the smaller root `-6/5` and rejects it. -/
theorem rayCast_counterexample :
    rayCast ⟨0,0,0⟩ ⟨0,0,1⟩ [⟨0,0,0⟩] = none ∧
    Vec3.dot ⟨0,0,1⟩ ⟨0,0,1⟩ * (6/5 : ℝ) ^ 2 +
      2 * Vec3.dot (Vec3.sub ⟨0,0,0⟩ ⟨0,0,0⟩) ⟨0,0,1⟩ * (6/5 : ℝ) +
      (Vec3.dot (Vec3.sub ⟨0,0,0⟩ ⟨0,0,0⟩) (Vec3.sub ⟨0,0,0⟩ ⟨0,0,0⟩) -
        (0.8 * 1.5 : ℝ) ^ 2) = 0 ∧
    (0 : ℝ) < 6/5 := by
  refine ⟨?_, by norm_num [Vec3.dot, Vec3.sub], by norm_num⟩
  have hnone : hitT ⟨0,0,0⟩ ⟨0,0,1⟩ ⟨0,0,0⟩ = none := by
    apply hitT_eval_none ⟨0,0,0⟩ ⟨0,0,1⟩ ⟨0,0,0⟩ (12/5) (-(6/5)) (by norm_num)
    · norm_num [Vec3.dot, Vec3.sub]
    · norm_num [Vec3.dot, Vec3.sub]
    · norm_num
  rw [rayCast, rayCastAux_cons_none ⟨0,0,0⟩ ⟨0,0,1⟩ ⟨0,0,0⟩ [] 0 none hnone]
  rfl

/-! ## C8: the pitch clamp of `rotateCamera` -/

theorem dot_smul_smul (s : ℝ) (v : Vec3) :
    Vec3.dot (Vec3.smul s v) (Vec3.smul s v) = s ^ 2 * Vec3.dot v v := by
  simp only [Vec3.dot, Vec3.smul]
  ring

theorem rcDir_unit (position target : Vec3)
    (h : Vec3.length (Vec3.sub target position) ≠ 0) :
    Vec3.dot (rcDir position target) (rcDir position target) = 1 := by
  have hv : Vec3.dot (Vec3.sub target position) (Vec3.sub target position) ≠ 0 := by
    intro hc
    exact h (by rw [Vec3.length, hc, Real.sqrt_zero])
  have hL := Vec3.length_sq (Vec3.sub target position)
  rw [rcDir, dot_smul_smul]
  rw [← hL]
  have hLne : Vec3.length (Vec3.sub target position) ≠ 0 := h
  field_simp
  ring

theorem rcYawDir_eval (position target : Vec3) (yaw : ℝ) :
    rcYawDir position target ⟨0,1,0⟩ yaw =
      ⟨(rcDir position target).x * Real.cos yaw -
          (rcDir position target).z * Real.sin yaw,
        (rcDir position target).y * Real.cos yaw,
        (rcDir position target).z * Real.cos yaw +
          (rcDir position target).x * Real.sin yaw⟩ := by
  rw [rcYawDir]
  simp only [Vec3.add, Vec3.smul, Vec3.cross, Vec3.mk.injEq]
  refine ⟨by ring, by ring, by ring⟩

theorem rcYawDir_norm (position target : Vec3) (yaw : ℝ)
    (h : Vec3.length (Vec3.sub target position) ≠ 0) :
    Vec3.dot (rcYawDir position target ⟨0,1,0⟩ yaw)
        (rcYawDir position target ⟨0,1,0⟩ yaw) =
      1 - (rcDir position target).y ^ 2 * Real.sin yaw ^ 2 := by
  have hd2 := rcDir_unit position target h
  rw [rcYawDir_eval]
  simp only [Vec3.dot] at hd2 ⊢
  have hA := Real.sin_sq_add_cos_sq yaw
  linear_combination
    ((rcDir position target).x * (rcDir position target).x +
      (rcDir position target).y * (rcDir position target).y +
      (rcDir position target).z * (rcDir position target).z) * hA + hd2

theorem rcYawDir_y_le (position target : Vec3) (yaw : ℝ)
    (h : Vec3.length (Vec3.sub target position) ≠ 0) :
    |(rcYawDir position target ⟨0,1,0⟩ yaw).y| ≤
      |(rcDir position target).y| *
        Vec3.length (rcYawDir position target ⟨0,1,0⟩ yaw) := by
  have hd2 := rcDir_unit position target h
  have hdy1 : (rcDir position target).y ^ 2 ≤ 1 := by
    simp only [Vec3.dot] at hd2
    nlinarith [mul_self_nonneg (rcDir position target).x,
      mul_self_nonneg (rcDir position target).z]
  have hA := Real.sin_sq_add_cos_sq yaw
  have hc2 : Real.cos yaw ^ 2 ≤
      1 - (rcDir position target).y ^ 2 * Real.sin yaw ^ 2 := by
    nlinarith [mul_nonneg (by linarith : (0:ℝ) ≤ 1 - (rcDir position target).y ^ 2)
      (sq_nonneg (Real.sin yaw))]
  have hy : (rcYawDir position target ⟨0,1,0⟩ yaw).y =
      (rcDir position target).y * Real.cos yaw := by
    rw [rcYawDir_eval]
  rw [hy, abs_mul, Vec3.length, rcYawDir_norm position target yaw h]
  apply mul_le_mul_of_nonneg_left _ (abs_nonneg (rcDir position target).y)
  rw [← Real.sqrt_sq_eq_abs]
  exact Real.sqrt_le_sqrt hc2

/-- C8 amended: the `±85°` limit in `rotateCamera` only gates whether the
pitch rotation is applied: when the predicted pitch
`asin(newDirYaw.y) + pitch` falls outside the bound (`rcGuard` fails), only
the yaw rotation is kept, and that never increases the magnitude of the
view direction's vertical component (`|sin pitch|`); in particular a
direction already beyond ±85° pitch is left there rather than clamped
back. -/
theorem rotateCamera_guard_spec (position target : Vec3) (yaw pitch : ℝ)
    (t' : Vec3)
    (h0 : Vec3.length (Vec3.sub target position) ≠ 0)
    (hg : ¬ rcGuard position target ⟨0,1,0⟩ yaw pitch)
    (hr : rotateCamera position target ⟨0,1,0⟩ yaw pitch = some t') :
    |(Vec3.sub t' position).y| ≤ 5 * |(rcDir position target).y| := by
  rw [rotateCamera, if_neg h0] at hr
  simp only [if_neg hg] at hr
  by_cases hw : Vec3.length (rcYawDir position target ⟨0,1,0⟩ yaw) = 0
  · rw [if_pos hw] at hr
    exact Option.noConfusion hr
  · rw [if_neg hw] at hr
    have ht' := (Option.some.inj hr).symm
    have hy : (Vec3.sub t' position).y =
        5 * ((Vec3.length (rcYawDir position target ⟨0,1,0⟩ yaw))⁻¹ *
          (rcYawDir position target ⟨0,1,0⟩ yaw).y) := by
      rw [ht']
      simp only [Vec3.sub, Vec3.add, Vec3.smul]
      ring
    have hkey := rcYawDir_y_le position target yaw h0
    have hLpos : 0 < Vec3.length (rcYawDir position target ⟨0,1,0⟩ yaw) :=
      lt_of_le_of_ne (Vec3.length_nonneg _) (Ne.symm hw)
    rw [hy, abs_mul, abs_mul, abs_of_nonneg (by norm_num : (0:ℝ) ≤ 5),
      abs_of_nonneg (inv_nonneg.mpr (Vec3.length_nonneg _))]
    have h1 : (Vec3.length (rcYawDir position target ⟨0,1,0⟩ yaw))⁻¹ *
        |(rcYawDir position target ⟨0,1,0⟩ yaw).y| ≤ |(rcDir position target).y| := by
      rw [inv_mul_le_iff₀ hLpos, mul_comm]
      exact hkey
    nlinarith [abs_nonneg (rcYawDir position target ⟨0,1,0⟩ yaw).y]

/-! Concrete vertical-pose fixture for C8. -/

theorem vertical_sub_eval : Vec3.sub ⟨0,5,0⟩ ⟨0,0,0⟩ = (⟨0,5,0⟩ : Vec3) := by
  simp only [Vec3.sub, Vec3.mk.injEq]
  norm_num

theorem vertical_length_eval : Vec3.length (⟨0,5,0⟩ : Vec3) = 5 := by
  have h : Vec3.dot ⟨0,5,0⟩ ⟨0,5,0⟩ = 25 := by norm_num [Vec3.dot]
  rw [Vec3.length, h, show (25:ℝ) = 5 ^ 2 by norm_num, Real.sqrt_sq (by norm_num)]

theorem unit_length_eval : Vec3.length (⟨0,1,0⟩ : Vec3) = 1 := by
  have h : Vec3.dot ⟨0,1,0⟩ ⟨0,1,0⟩ = 1 := by norm_num [Vec3.dot]
  rw [Vec3.length, h, Real.sqrt_one]

theorem vertical_rcDir_eval : rcDir ⟨0,0,0⟩ ⟨0,5,0⟩ = (⟨0,1,0⟩ : Vec3) := by
  rw [rcDir, vertical_sub_eval, vertical_length_eval]
  simp only [Vec3.smul, Vec3.mk.injEq]
  norm_num

theorem vertical_rcYawDir_eval :
    rcYawDir ⟨0,0,0⟩ ⟨0,5,0⟩ ⟨0,1,0⟩ 0 = (⟨0,1,0⟩ : Vec3) := by
  rw [rcYawDir_eval, vertical_rcDir_eval]
  simp only [Real.cos_zero, Real.sin_zero, Vec3.mk.injEq]
  norm_num

theorem vertical_not_rcGuard : ¬ rcGuard ⟨0,0,0⟩ ⟨0,5,0⟩ ⟨0,1,0⟩ 0 0 := by
  rw [rcGuard, vertical_rcYawDir_eval]
  rw [show ((⟨0,1,0⟩ : Vec3).y) = 1 from rfl, Real.arcsin_one, add_zero,
    abs_of_pos (by positivity)]
  intro hcontra
  nlinarith [Real.pi_pos]

theorem vertical_rotate_eval :
    rotateCamera ⟨0,0,0⟩ ⟨0,5,0⟩ ⟨0,1,0⟩ 0 0 = some ⟨0,5,0⟩ := by
  rw [rotateCamera, vertical_sub_eval, vertical_length_eval]
  rw [if_neg (by norm_num : ¬ (5:ℝ) = 0)]
  simp only [if_neg vertical_not_rcGuard]
  rw [vertical_rcYawDir_eval, unit_length_eval]
  rw [if_neg (by norm_num : ¬ (1:ℝ) = 0)]
  simp only [Vec3.add, Vec3.smul, Option.some.injEq, Vec3.mk.injEq]
  norm_num

/-- C8 counterexample: from the pose looking straight up, `rotateCamera 0 0`
returns the unchanged target `(0,5,0)`, whose view direction has pitch
`arcsin 1 = 90° > 85°`: the clamp does not bound the resulting pitch for
every starting pose. -/
theorem rotateCamera_pitch_counterexample :
    rotateCamera ⟨0,0,0⟩ ⟨0,5,0⟩ ⟨0,1,0⟩ 0 0 = some ⟨0,5,0⟩ ∧
    85 * Real.pi / 180 <
      Real.arcsin ((Vec3.sub ⟨0,5,0⟩ ⟨0,0,0⟩).y /
        Vec3.length (Vec3.sub ⟨0,5,0⟩ ⟨0,0,0⟩)) := by
  refine ⟨vertical_rotate_eval, ?_⟩
  rw [vertical_sub_eval, vertical_length_eval,
    show ((⟨0,5,0⟩ : Vec3).y) = 5 from rfl,
    show (5:ℝ)/5 = 1 by norm_num, Real.arcsin_one]
  nlinarith [Real.pi_pos]

/-- Witness for C8 on the vertical fixture. -/
theorem rotateCamera_guard_spec_witness :
    |(Vec3.sub ⟨0,5,0⟩ ⟨0,0,0⟩).y| ≤ 5 * |(rcDir ⟨0,0,0⟩ ⟨0,5,0⟩).y| :=
  rotateCamera_guard_spec ⟨0,0,0⟩ ⟨0,5,0⟩ 0 0 ⟨0,5,0⟩
    (by rw [vertical_sub_eval, vertical_length_eval]; norm_num)
    vertical_not_rcGuard vertical_rotate_eval

end HyperCube
